import Mathlib

/-!
Verification development for the utilities.dev repository.

The two subsystems under study are the line-based text-diff engine
(src/app/diff/utils.ts) and the cron scheduler
(src/app/markdown-viewer/utils.ts).  JavaScript strings are modelled as
`List Char`; JavaScript `undefined`-producing index accesses are modelled
with `Option`.  Loops are modelled as fuel-based structural recursions,
with the fuel instantiated to a provably sufficient bound so that every
definition is executable.
-/

namespace UtilitiesDev

/-- Coerce a Lean string literal into the JavaScript-string model. -/
def jstr (s : String) : List Char := s.data

/-- Character class of the JavaScript regular-expression `\s`. -/
def jsSpace (c : Char) : Bool :=
  c ∈ [' ', '\t', '\n', '\r', '\u000B', '\u000C', ' ', ' ',
       ' ', ' ', ' ', ' ', ' ', ' ', ' ',
       ' ', ' ', ' ', ' ', ' ', ' ', ' ',
       ' ', '　', '﻿']

/-- Model of `String.prototype.trim`: drop `\s` characters from both ends. -/
def jsTrim (l : List Char) : List Char :=
  ((l.dropWhile jsSpace).reverse.dropWhile jsSpace).reverse

/-- Helper for `jsCollapseWs`: the flag records whether the previous
character was whitespace (so that a whole `\s+` run yields one space). -/
def jsCollapseWsAux : Bool → List Char → List Char
  | _, [] => []
  | prevSp, c :: rest =>
    if jsSpace c then
      if prevSp then jsCollapseWsAux true rest
      else ' ' :: jsCollapseWsAux true rest
    else c :: jsCollapseWsAux false rest

/-- Model of `s.replace(/\s+/g, " ")`: collapse each maximal run of
whitespace characters to a single space. -/
def jsCollapseWs (l : List Char) : List Char := jsCollapseWsAux false l

/-- Model of indexing `a[i]` on a JavaScript array: out-of-range accesses
yield `undefined`, modelled as `none`. -/
def jsGet (l : List (List Char)) (i : Nat) : Option (List Char) := l.get? i

/-- Indexing where the caller only ever uses in-range indices; the default
is irrelevant there. -/
def jsGetD (l : List (List Char)) (i : Nat) : List Char := (l.get? i).getD []

/-! ## Diff engine data model (src/app/diff/utils.ts) -/

/-- The `type` field of a `DiffLine`. -/
inductive DiffType where
  | equal
  | added
  | removed
  deriving DecidableEq, Repr

/-- One row of a diff result (interface `DiffLine`). -/
structure DiffLine where
  type : DiffType
  content : List Char
  lineNumber1 : Option Nat := none
  lineNumber2 : Option Nat := none
  deriving DecidableEq, Repr

/-- Comparison options (interface `DiffOptions`). -/
structure DiffOptions where
  ignoreWhitespace : Bool := false
  ignoreCase : Bool := false
  contextLines : Option Nat := none
  deriving DecidableEq, Repr

/-- Diff statistics (interface `DiffStats`). -/
structure DiffStats where
  added : Nat
  removed : Nat
  unchanged : Nat
  total : Nat
  deriving DecidableEq, Repr

/-- Complete diff result (interface `DiffResult`). -/
structure DiffResult where
  lines : List DiffLine
  stats : DiffStats
  hasChanges : Bool
  deriving DecidableEq, Repr

/-- `processText`: normalises a line according to the options.
`ignoreCase` lower-cases it; `ignoreWhitespace` collapses whitespace runs
to a single space and trims the ends. -/
def processText (text : List Char) (options : DiffOptions) : List Char :=
  let processed := if options.ignoreCase then text.map Char.toLower else text
  if options.ignoreWhitespace then jsTrim (jsCollapseWs processed)
  else processed

/-- Fuel-based evaluation of the `lcs` dynamic-programming table:
`dpF a b fuel i j` is `dp[i][j]` whenever `i + j ≤ fuel`.  The comparison
`a[i-1] === b[j-1]` is modelled on `Option` so that it matches the
JavaScript semantics of out-of-range accesses. -/
def dpF (a b : List (List Char)) : Nat → Nat → Nat → Nat
  | _, 0, _ => 0
  | _, _ + 1, 0 => 0
  | 0, _ + 1, _ + 1 => 0
  | fuel + 1, i + 1, j + 1 =>
    if jsGet a i = jsGet b j then dpF a b fuel i j + 1
    else max (dpF a b fuel i (j + 1)) (dpF a b fuel (i + 1) j)

/-- Entry `dp[i][j]` of the table built by `lcs`: the LCS length of the
first `i` lines of `a` and the first `j` lines of `b`. -/
def lcsDp (a b : List (List Char)) (i j : Nat) : Nat := dpF a b (i + j) i j

/-- Backward reconstruction loop of `generateLCSDiff`.  The source walks
from `(len1, len2)` down to `(0, 0)` and `unshift`s each emitted line, so
the forward result is `recursive-result ++ [emitted-line]`. -/
def walkF (lines1 lines2 p1 p2 : List (List Char)) :
    Nat → Nat → Nat → List DiffLine
  | 0, _, _ => []
  | fuel + 1, i, j =>
    if i = 0 ∧ j = 0 then []
    else if 0 < i ∧ 0 < j ∧ jsGet p1 (i - 1) = jsGet p2 (j - 1) then
      walkF lines1 lines2 p1 p2 fuel (i - 1) (j - 1) ++
        [⟨.equal, jsGetD lines1 (i - 1), some i, some j⟩]
    else if 0 < j ∧ (i = 0 ∨ lcsDp p1 p2 (i - 1) j ≤ lcsDp p1 p2 i (j - 1)) then
      walkF lines1 lines2 p1 p2 fuel i (j - 1) ++
        [⟨.added, jsGetD lines2 (j - 1), none, some j⟩]
    else if 0 < i then
      walkF lines1 lines2 p1 p2 fuel (i - 1) j ++
        [⟨.removed, jsGetD lines1 (i - 1), some i, none⟩]
    else []

/-- `generateLCSDiff`: LCS-based diff of the raw lines, with matching done
on the processed lines. -/
def generateLCSDiff (lines1 lines2 p1 p2 : List (List Char)) : List DiffLine :=
  walkF lines1 lines2 p1 p2 (lines1.length + lines2.length)
    lines1.length lines2.length

/-- The first lookahead of `generateSimpleDiff`: the first index `k` with
`j + 1 ≤ k < min (j + 5) lines2.length` such that `p1[i] === p2[k]`. -/
def lookAheadInModified (p1 p2 : List (List Char)) (i j : Nat) : Option Nat :=
  (List.range' (j + 1) (min (j + 5) p2.length - (j + 1))).find?
    (fun k => decide (jsGet p1 i = jsGet p2 k))

/-- The second lookahead of `generateSimpleDiff`: the first index `k` with
`i + 1 ≤ k < min (i + 5) lines1.length` such that `p1[k] === p2[j]`. -/
def lookAheadInOriginal (p1 p2 : List (List Char)) (i j : Nat) : Option Nat :=
  (List.range' (i + 1) (min (i + 5) p1.length - (i + 1))).find?
    (fun k => decide (jsGet p1 k = jsGet p2 j))

/-- Lines `lines2[j .. k)` emitted as pure additions. -/
def addedRange (lines2 : List (List Char)) (j k : Nat) : List DiffLine :=
  (List.range' j (k - j)).map
    (fun l => ⟨.added, jsGetD lines2 l, none, some (l + 1)⟩)

/-- Lines `lines1[i .. k)` emitted as pure removals. -/
def removedRange (lines1 : List (List Char)) (i k : Nat) : List DiffLine :=
  (List.range' i (k - i)).map
    (fun l => ⟨.removed, jsGetD lines1 l, some (l + 1), none⟩)

/-- Main loop of `generateSimpleDiff`, one recursive call per iteration of
the source's `while (i < lines1.length || j < lines2.length)` loop. -/
def simpleF (lines1 lines2 p1 p2 : List (List Char)) :
    Nat → Nat → Nat → List DiffLine
  | 0, _, _ => []
  | fuel + 1, i, j =>
    if lines1.length ≤ i ∧ lines2.length ≤ j then []
    else if lines1.length ≤ i then
      ⟨.added, jsGetD lines2 j, none, some (j + 1)⟩ ::
        simpleF lines1 lines2 p1 p2 fuel i (j + 1)
    else if lines2.length ≤ j then
      ⟨.removed, jsGetD lines1 i, some (i + 1), none⟩ ::
        simpleF lines1 lines2 p1 p2 fuel (i + 1) j
    else if jsGet p1 i = jsGet p2 j then
      ⟨.equal, jsGetD lines1 i, some (i + 1), some (j + 1)⟩ ::
        simpleF lines1 lines2 p1 p2 fuel (i + 1) (j + 1)
    else
      match lookAheadInModified p1 p2 i j with
      | some k =>
        addedRange lines2 j k ++
          ⟨.equal, jsGetD lines1 i, some (i + 1), some (k + 1)⟩ ::
            simpleF lines1 lines2 p1 p2 fuel (i + 1) (k + 1)
      | none =>
        match lookAheadInOriginal p1 p2 i j with
        | some k =>
          removedRange lines1 i k ++
            ⟨.equal, jsGetD lines1 k, some (k + 1), some (j + 1)⟩ ::
              simpleF lines1 lines2 p1 p2 fuel (k + 1) (j + 1)
        | none =>
          ⟨.removed, jsGetD lines1 i, some (i + 1), none⟩ ::
            ⟨.added, jsGetD lines2 j, none, some (j + 1)⟩ ::
              simpleF lines1 lines2 p1 p2 fuel (i + 1) (j + 1)

/-- `generateSimpleDiff`: greedy linear scan with bounded lookahead. -/
def generateSimpleDiff (lines1 lines2 p1 p2 : List (List Char)) :
    List DiffLine :=
  simpleF lines1 lines2 p1 p2 (lines1.length + lines2.length) 0 0

/-- `calculateDiffStats`: simple counts over the result lines. -/
def calculateDiffStats (lines : List DiffLine) : DiffStats :=
  { added := (lines.filter (fun l => l.type == DiffType.added)).length
    removed := (lines.filter (fun l => l.type == DiffType.removed)).length
    unchanged := (lines.filter (fun l => l.type == DiffType.equal)).length
    total := lines.length }

/-- Model of `text ? text.split("\n") : []`: the empty string is falsy
and yields no lines. -/
def splitLines (text : List Char) : List (List Char) :=
  if text = [] then [] else text.splitOn '\n'

/-- `diffTexts`: the main entry point of the diff engine. -/
def diffTexts (text1 text2 : List Char) (options : DiffOptions) : DiffResult :=
  if text1 = [] ∧ text2 = [] then
    { lines := [], stats := ⟨0, 0, 0, 0⟩, hasChanges := false }
  else
    let lines1 := splitLines text1
    let lines2 := splitLines text2
    let processedLines1 := lines1.map (fun line => processText line options)
    let processedLines2 := lines2.map (fun line => processText line options)
    let useLCS := lines1.length + lines2.length < 1000
    let diffLines :=
      if useLCS then generateLCSDiff lines1 lines2 processedLines1 processedLines2
      else generateSimpleDiff lines1 lines2 processedLines1 processedLines2
    let stats := calculateDiffStats diffLines
    { lines := diffLines
      stats := stats
      hasChanges := stats.added > 0 || stats.removed > 0 }

/-- `areTextsIdentical`: compares the two whole texts after normalisation,
without building a diff. -/
def areTextsIdentical (text1 text2 : List Char) (options : DiffOptions) : Bool :=
  processText text1 options == processText text2 options

/-! ## Rendering helpers shared by `formatUnifiedDiff` -/

/-- Decimal digits of a natural number (helper, fuel-based). -/
def natToCharsAux : Nat → Nat → List Char
  | 0, _ => []
  | fuel + 1, n =>
    if n < 10 then [Char.ofNat (48 + n)]
    else natToCharsAux fuel (n / 10) ++ [Char.ofNat (48 + n % 10)]

/-- Decimal rendering of a natural number, as produced by JavaScript
template interpolation of a non-negative integer. -/
def natToChars (n : Nat) : List Char := natToCharsAux (n + 1) n

/-- Model of `array.join("\n")`. -/
def jsJoinLines (ls : List (List Char)) : List Char :=
  List.intercalate [ '\n' ] ls

/-- Model of the JavaScript expression `x || 1` on an optional line
number: `undefined` and `0` are falsy. -/
def jsOrOne (o : Option Nat) : Nat :=
  match o with
  | some n => if n = 0 then 1 else n
  | none => 1

/-- In-range access into the diff lines (default never used in range). -/
def jsGetDL (lines : List DiffLine) (i : Nat) : DiffLine :=
  (lines.get? i).getD ⟨.equal, [], none, none⟩

/-- First index `k ≥ i` at which the change block ends, i.e. `k` is past
the end of `lines` or `lines[k]` is an equal line (the source's inner
`while (i < lines.length && lines[i].type !== "equal") i++`). -/
def blockEndF (lines : List DiffLine) : Nat → Nat → Nat
  | 0, i => i
  | fuel + 1, i =>
    if i < lines.length then
      if (jsGetDL lines i).type ≠ DiffType.equal then blockEndF lines fuel (i + 1)
      else i
    else i

/-- Hunk header `@@ -a,b +c,d @@`. -/
def hunkHeader (a b c d : Nat) : List Char :=
  jstr "@@ -" ++ natToChars a ++ jstr "," ++ natToChars b ++
    jstr " +" ++ natToChars c ++ jstr "," ++ natToChars d ++ jstr " @@"

/-- Prefix character of a rendered diff line. -/
def linePrefix (t : DiffType) : Char :=
  match t with
  | .added => '+'
  | .removed => '-'
  | .equal => ' '

/-- The hunk-emitting loop of `formatUnifiedDiff` (the path taken when the
result has changes).  One fuel unit is consumed per skipped equal line or
per emitted hunk. -/
def hunksLoop (lines : List DiffLine) : Nat → Nat → List (List Char)
  | 0, _ => []
  | fuel + 1, i =>
    if lines.length ≤ i then []
    else if (jsGetDL lines i).type = DiffType.equal then
      hunksLoop lines fuel (i + 1)
    else
      let start := i
      let stop := blockEndF lines (lines.length - i) i
      let seg := (lines.drop start).take (stop - start)
      let removedCount := (seg.filter (fun l => l.type == DiffType.removed)).length
      let addedCount := (seg.filter (fun l => l.type == DiffType.added)).length
      let contextStart := if start > 0 then start - 1 else start
      let contextBefore := if start > 0 then 1 else 0
      let startLine1 := jsOrOne (jsGetDL lines contextStart).lineNumber1
      let startLine2 := jsOrOne (jsGetDL lines contextStart).lineNumber2
      let hdr := hunkHeader startLine1 (contextBefore + removedCount)
        startLine2 (contextBefore + addedCount)
      let ctx := if start > 0 then [' ' :: (jsGetDL lines (start - 1)).content] else []
      let body := seg.map (fun l => linePrefix l.type :: l.content)
      hdr :: (ctx ++ body) ++ hunksLoop lines fuel stop

/-- `formatUnifiedDiff`: renders a diff result in unified-diff format. -/
def formatUnifiedDiff (diffResult : DiffResult)
    (filename1 filename2 : List Char) : List Char :=
  let lines := diffResult.lines
  let header := [jstr "--- " ++ filename1, jstr "+++ " ++ filename2]
  if lines.length = 0 then jsJoinLines header
  else if diffResult.hasChanges = false ∧ lines.length > 0 then
    let equalLines := lines.filter (fun l => l.type == DiffType.equal)
    if equalLines.length > 0 then
      let firstLine := jsGetDL equalLines 0
      let startLine1 := jsOrOne firstLine.lineNumber1
      let startLine2 := jsOrOne firstLine.lineNumber2
      jsJoinLines (header ++
        hunkHeader startLine1 equalLines.length startLine2 equalLines.length ::
          equalLines.map (fun l => ' ' :: l.content))
    else jsJoinLines header
  else
    jsJoinLines (header ++ hunksLoop lines lines.length 0)

/-! ## Cron scheduler (src/app/markdown-viewer/utils.ts) -/

/-- Digits of the leading decimal-digit run of a character list. -/
def takeDigits (l : List Char) : List Char := l.takeWhile Char.isDigit

/-- Numeric value of a digit string. -/
def digitsToNat (l : List Char) : Nat :=
  l.foldl (fun a c => a * 10 + (c.toNat - 48)) 0

/-- Model of `parseInt(s, 10)`: skip leading whitespace, accept an
optional sign, then read the maximal run of decimal digits; `none` models
`NaN` (no digits found). -/
def jsParseInt (l : List Char) : Option Int :=
  let t := l.dropWhile jsSpace
  match t with
  | '-' :: rest =>
    let d := takeDigits rest
    if d = [] then none else some (-(digitsToNat d : Int))
  | '+' :: rest =>
    let d := takeDigits rest
    if d = [] then none else some ((digitsToNat d : Int))
  | _ =>
    let d := takeDigits t
    if d = [] then none else some ((digitsToNat d : Int))

/-- `getFieldValue`: resolve a field token to a number, first through the
optional name table (case-insensitively), then through `parseInt`; a
`NaN` parse yields `-1`. -/
def getFieldValue (value : List Char) (names : Option (List (List Char)))
    (mn : Int) : Int :=
  let viaName := names.bind (fun ns =>
    (ns.findIdx? (fun name => name.map Char.toLower == value.map Char.toLower)).map
      (fun idx => (idx : Int) + mn))
  match viaName with
  | some v => v
  | none => (jsParseInt value).getD (-1)

/-- Model of `for (let i = start; i <= stop; i += step)` collecting `i`,
for a positive step. -/
def intStepRange (start stop step : Int) : List Int :=
  if 0 < step ∧ start ≤ stop then
    (List.range (((stop - start).toNat / step.toNat) + 1)).map
      (fun k : Nat => start + step * (k : Int))
  else []

/-- First-occurrence de-duplication helper (`[...new Set(values)]`). -/
def dedupFirstAux (seen : List Int) : List Int → List Int
  | [] => []
  | x :: xs =>
    if x ∈ seen then dedupFirstAux seen xs
    else x :: dedupFirstAux (x :: seen) xs

/-- Model of `[...new Set(values)]`: keep the first occurrence of each
value, in order. -/
def dedupFirst (l : List Int) : List Int := dedupFirstAux [] l

/-- Model of `.sort((a, b) => a - b)`: numeric ascending sort. -/
def sortAsc (l : List Int) : List Int := l.insertionSort (· ≤ ·)

/-- The expansion of one comma-part of a cron field (the body of the
`for (const part of parts)` loop in `parseField`); a skipped part
(`continue` or failed bounds check) contributes `[]`. -/
def partValues (mn mx : Int) (names : Option (List (List Char)))
    (part : List Char) : List Int :=
  if part.contains '/' then
    let ps := part.splitOn '/'
    let range := ps.headD []
    let step := (ps.get? 1).getD []
    match jsParseInt step with
    | none => []
    | some stepNum =>
      if stepNum ≤ 0 then []
      else if range = jstr "*" then intStepRange mn mx stepNum
      else if range.contains '-' then
        let rs := range.splitOn '-'
        let startNum := getFieldValue (rs.headD []) names mn
        let endNum := getFieldValue ((rs.get? 1).getD []) names mn
        if mn ≤ startNum ∧ endNum ≤ mx ∧ startNum ≤ endNum then
          intStepRange startNum endNum stepNum
        else []
      else
        let startNum := getFieldValue range names mn
        if mn ≤ startNum ∧ startNum ≤ mx then intStepRange startNum mx stepNum
        else []
  else if part.contains '-' then
    let rs := part.splitOn '-'
    let startNum := getFieldValue (rs.headD []) names mn
    let endNum := getFieldValue ((rs.get? 1).getD []) names mn
    if mn ≤ startNum ∧ endNum ≤ mx ∧ startNum ≤ endNum then
      intStepRange startNum endNum 1
    else []
  else
    let num := getFieldValue part names mn
    if mn ≤ num ∧ num ≤ mx then [num] else []

/-- `parseField`: expand a cron field into the sorted, de-duplicated list
of concrete values it denotes. -/
def parseField (field : List Char) (mn mx : Int)
    (names : Option (List (List Char))) : List Int :=
  if field = jstr "*" then intStepRange mn mx 1
  else sortAsc (dedupFirst ((field.splitOn ',').flatMap (partValues mn mx names)))

/-- The cron field kinds (keys of `CRON_RANGES`). -/
inductive CronFieldType where
  | second
  | minute
  | hour
  | dayOfMonth
  | month
  | dayOfWeek
  deriving DecidableEq, Repr

/-- One entry of `CRON_RANGES`. -/
structure CronRange where
  mn : Int
  mx : Int
  names : Option (List (List Char))

/-- The `CRON_RANGES` table. -/
def CRON_RANGES : CronFieldType → CronRange
  | .second => ⟨0, 59, none⟩
  | .minute => ⟨0, 59, none⟩
  | .hour => ⟨0, 23, none⟩
  | .dayOfMonth => ⟨1, 31, none⟩
  | .month => ⟨1, 12, some [jstr "JAN", jstr "FEB", jstr "MAR", jstr "APR",
      jstr "MAY", jstr "JUN", jstr "JUL", jstr "AUG", jstr "SEP", jstr "OCT",
      jstr "NOV", jstr "DEC"]⟩
  | .dayOfWeek => ⟨0, 6, some [jstr "SUN", jstr "MON", jstr "TUE", jstr "WED",
      jstr "THU", jstr "FRI", jstr "SAT"]⟩

/-- `validateCronField`: a field is valid iff it is a nonempty string
whose expansion set is nonempty. -/
def validateCronField (field : List Char) (t : CronFieldType) : Bool :=
  if field = [] then false
  else
    let r := CRON_RANGES t
    (parseField field r.mn r.mx r.names).length > 0

/-- Structured cron expression (interface `ParsedCron`). -/
structure ParsedCron where
  minute : List Char
  hour : List Char
  dayOfMonth : List Char
  month : List Char
  dayOfWeek : List Char
  second : Option (List Char) := none
  deriving DecidableEq, Repr

/-- Result of `parseCronExpression` (interface `CronParseResult`). -/
inductive CronParseResult where
  | success (data : ParsedCron)
  | failure (error : List Char)
  deriving DecidableEq, Repr

/-- Tokens of `trimmed.split(/\s+/)` for an already-trimmed string: the
maximal runs of non-whitespace characters. -/
def wsTokens (l : List Char) : List (List Char) :=
  (l.splitOnP jsSpace).filter (fun t => t ≠ [])

/-- `parseCronExpression`: purely structural parsing by whitespace
splitting; only a field count of 5 or 6 succeeds. -/
def parseCronExpression (expression : List Char) : CronParseResult :=
  if expression = [] then
    .failure (jstr "Expression must be a non-empty string")
  else
    let trimmed := jsTrim expression
    if trimmed = [] then .failure (jstr "Expression cannot be empty")
    else
      let parts := wsTokens trimmed
      if parts.length = 5 then
        .success ⟨jsGetD parts 0, jsGetD parts 1, jsGetD parts 2,
          jsGetD parts 3, jsGetD parts 4, none⟩
      else if parts.length = 6 then
        .success ⟨jsGetD parts 1, jsGetD parts 2, jsGetD parts 3,
          jsGetD parts 4, jsGetD parts 5, some (jsGetD parts 0)⟩
      else
        .failure (jstr "Invalid cron format. Expected 5 or 6 parts, got " ++
          natToChars parts.length)

/-- `validateCronExpression`: all five (or six) fields must individually
validate. -/
def validateCronExpression (expression : List Char) : Bool :=
  match parseCronExpression expression with
  | .failure _ => false
  | .success data =>
    let validations :=
      [validateCronField data.minute .minute,
       validateCronField data.hour .hour,
       validateCronField data.dayOfMonth .dayOfMonth,
       validateCronField data.month .month,
       validateCronField data.dayOfWeek .dayOfWeek] ++
      (match data.second with
       | some s => if s = [] then [] else [validateCronField s .second]
       | none => [])
    validations.all id

/-- A wall-clock instant at minute precision, as read off a JavaScript
`Date` in local time (`getFullYear`, `getMonth`+1, `getDate`, `getHours`,
`getMinutes`, `getDay`). -/
structure DateTime where
  year : Nat
  month : Nat
  day : Nat
  hour : Nat
  minute : Nat
  dow : Nat
  deriving DecidableEq, Repr

/-- Gregorian leap-year rule, as implemented by JavaScript `Date`. -/
def isLeapYear (y : Nat) : Bool :=
  (y % 4 = 0 ∧ ¬ y % 100 = 0) ∨ y % 400 = 0

/-- Number of days of a month (1-indexed) in a year. -/
def daysInMonth (y m : Nat) : Nat :=
  if m = 2 then (if isLeapYear y then 29 else 28)
  else if m ∈ [4, 6, 9, 11] then 30
  else 31

/-- Model of `current.setMinutes(current.getMinutes() + 1)` on a `Date`
already truncated to the minute: advance one minute with calendar
rollover. -/
def addOneMinute (t : DateTime) : DateTime :=
  if t.minute + 1 < 60 then { t with minute := t.minute + 1 }
  else if t.hour + 1 < 24 then { t with minute := 0, hour := t.hour + 1 }
  else
    let ndow := (t.dow + 1) % 7
    if t.day + 1 ≤ daysInMonth t.year t.month then
      { t with minute := 0, hour := 0, day := t.day + 1, dow := ndow }
    else if t.month + 1 ≤ 12 then
      { t with minute := 0, hour := 0, day := 1, month := t.month + 1, dow := ndow }
    else
      { year := t.year + 1, month := 1, day := 1, hour := 0, minute := 0, dow := ndow }

/-- The per-instant match test of `calculateNextExecutions`: note that the
day clause is a plain disjunction of the two expanded day sets, with no
special-casing of a `*` field. -/
def cronInstantMatches (minutes hours daysOfMonth months daysOfWeek : List Int)
    (t : DateTime) : Bool :=
  months.contains (t.month : Int) &&
    (daysOfMonth.contains (t.day : Int) || daysOfWeek.contains (t.dow : Int)) &&
    hours.contains (t.hour : Int) &&
    minutes.contains (t.minute : Int)

/-- The scanning loop of `calculateNextExecutions`: at most `fuel`
(initially 10000) minute steps, stopping early once `count` matches have
been collected. -/
def nextExecLoop (count : Nat) (minutes hours daysOfMonth months daysOfWeek : List Int) :
    Nat → DateTime → List DateTime → List DateTime
  | 0, _, acc => acc
  | fuel + 1, current, acc =>
    if count ≤ acc.length then acc
    else
      nextExecLoop count minutes hours daysOfMonth months daysOfWeek fuel
        (addOneMinute current)
        (if cronInstantMatches minutes hours daysOfMonth months daysOfWeek current
         then acc ++ [current] else acc)

/-- The iteration bound `maxAttempts` of `calculateNextExecutions`. -/
def maxAttempts : Nat := 10000

/-- `calculateNextExecutions`: scan minute-by-minute from the minute
after `now`, collecting instants that match the expanded field sets,
until `count` matches are found or 10000 minutes have been examined.
An expression that fails parsing or validation yields `[]`. -/
def calculateNextExecutions (expression : List Char) (count : Nat)
    (now : DateTime) : List DateTime :=
  match parseCronExpression expression with
  | .failure _ => []
  | .success data =>
    if ¬ validateCronExpression expression then []
    else
      let minutes := parseField data.minute 0 59 none
      let hours := parseField data.hour 0 23 none
      let daysOfMonth := parseField data.dayOfMonth 1 31 none
      let months := parseField data.month 1 12 (CRON_RANGES .month).names
      let daysOfWeek := parseField data.dayOfWeek 0 6 (CRON_RANGES .dayOfWeek).names
      nextExecLoop count minutes hours daysOfMonth months daysOfWeek
        maxAttempts (addOneMinute now) []

/-! ## Auxiliary definitions used only by the statements of the claims -/

/-- Whether a parse result is a success. -/
def CronParseResult.isOk : CronParseResult → Bool
  | .success _ => true
  | .failure _ => false

/-- The count-reporting failure message of `parseCronExpression`. -/
def cronCountMsg (n : Nat) : List Char :=
  jstr "Invalid cron format. Expected 5 or 6 parts, got " ++ natToChars n

/-- Lexicographic minute-resolution key of an instant: strictly increasing
along wall-clock time for well-formed instants. -/
def dtKey (t : DateTime) : Nat :=
  (((t.year * 12 + (t.month - 1)) * 31 + (t.day - 1)) * 24 + t.hour) * 60 + t.minute

/-- Field ranges of a `DateTime` that a JavaScript `Date` always
maintains. -/
def DateTimeWF (t : DateTime) : Prop :=
  1 ≤ t.month ∧ t.month ≤ 12 ∧ 1 ≤ t.day ∧ t.day ≤ daysInMonth t.year t.month ∧
    t.hour ≤ 23 ∧ t.minute ≤ 59

instance (t : DateTime) : Decidable (DateTimeWF t) := by
  unfold DateTimeWF; infer_instance

/-- Modelled from the spec: the first lookahead of the heuristic diff as
C3 describes it, with `w` the number of lines examined ahead of cursor
`j` in the modified sequence. -/
def specLookaheadModified (w : Nat) (p1 p2 : List (List Char)) (i j : Nat) :
    Option Nat :=
  ((List.range' (j + 1) w).filter (fun k => decide (k < p2.length))).find?
    (fun k => decide (jsGet p1 i = jsGet p2 k))

/-- Modelled from the spec: the second lookahead of the heuristic diff as
C3 describes it, searching ahead of cursor `i` in the original
sequence. -/
def specLookaheadOriginal (w : Nat) (p1 p2 : List (List Char)) (i j : Nat) :
    Option Nat :=
  ((List.range' (i + 1) w).filter (fun k => decide (k < p1.length))).find?
    (fun k => decide (jsGet p1 k = jsGet p2 j))

/-- Modelled from the spec: the heuristic diff engine as C3 describes it:
advance both cursors on a match; on a mismatch search up to `w` lines
ahead in the modified sequence, then up to `w` lines ahead in the
original sequence, emitting skipped lines as pure additions
(resp. removals) followed by an equal line; with no match within the
window on either side, emit one removed and one added line and advance
both cursors. -/
def specSimpleF (w : Nat) (lines1 lines2 p1 p2 : List (List Char)) :
    Nat → Nat → Nat → List DiffLine
  | 0, _, _ => []
  | fuel + 1, i, j =>
    if lines1.length ≤ i ∧ lines2.length ≤ j then []
    else if lines1.length ≤ i then
      ⟨.added, jsGetD lines2 j, none, some (j + 1)⟩ ::
        specSimpleF w lines1 lines2 p1 p2 fuel i (j + 1)
    else if lines2.length ≤ j then
      ⟨.removed, jsGetD lines1 i, some (i + 1), none⟩ ::
        specSimpleF w lines1 lines2 p1 p2 fuel (i + 1) j
    else if jsGet p1 i = jsGet p2 j then
      ⟨.equal, jsGetD lines1 i, some (i + 1), some (j + 1)⟩ ::
        specSimpleF w lines1 lines2 p1 p2 fuel (i + 1) (j + 1)
    else
      match specLookaheadModified w p1 p2 i j with
      | some k =>
        addedRange lines2 j k ++
          ⟨.equal, jsGetD lines1 i, some (i + 1), some (k + 1)⟩ ::
            specSimpleF w lines1 lines2 p1 p2 fuel (i + 1) (k + 1)
      | none =>
        match specLookaheadOriginal w p1 p2 i j with
        | some k =>
          removedRange lines1 i k ++
            ⟨.equal, jsGetD lines1 k, some (k + 1), some (j + 1)⟩ ::
              specSimpleF w lines1 lines2 p1 p2 fuel (k + 1) (j + 1)
        | none =>
          ⟨.removed, jsGetD lines1 i, some (i + 1), none⟩ ::
            ⟨.added, jsGetD lines2 j, none, some (j + 1)⟩ ::
              specSimpleF w lines1 lines2 p1 p2 fuel (i + 1) (j + 1)

/-- Modelled from the spec: entry point of the spec-described heuristic
diff with lookahead reach `w`. -/
def specSimpleDiff (w : Nat) (lines1 lines2 p1 p2 : List (List Char)) :
    List DiffLine :=
  specSimpleF w lines1 lines2 p1 p2 (lines1.length + lines2.length) 0 0

/-- Padding lines used to push concrete inputs over the 1000-line
heuristic-mode threshold. -/
def padP : List (List Char) := List.replicate 500 (jstr "P")

/-- Concrete heuristic-mode original input for C3: the line `"m"`
reappears in the modified input exactly 5 lines ahead. -/
def lookA : List (List Char) := jstr "m" :: padP

/-- Concrete heuristic-mode modified input for C3. -/
def lookB : List (List Char) :=
  [jstr "x1", jstr "x2", jstr "x3", jstr "x4", jstr "x5", jstr "m"] ++ padP

/-- Concrete original text for the C4 counterexample (503 lines). -/
def bigText1 : List Char := jsJoinLines ([jstr "X", jstr "M", jstr "N"] ++ padP)

/-- Concrete modified text for the C4 counterexample (503 lines). -/
def bigText2 : List Char := jsJoinLines ([jstr "M", jstr "N", jstr "X"] ++ padP)

/-- Tuesday, June 16 2026, 08:30 local time. -/
def tueStart : DateTime := ⟨2026, 6, 16, 8, 30, 2⟩

/-- Monday, June 1 2026, 00:00 local time. -/
def juneStart : DateTime := ⟨2026, 6, 1, 0, 0, 1⟩

/-! ## Lemmas about `intStepRange`, `dedupFirst` and `sortAsc` -/

theorem mem_intStepRange {s e st v : Int} (hv : v ∈ intStepRange s e st) :
    s ≤ v ∧ v ≤ e := by
  unfold intStepRange at hv
  split at hv
  case isFalse => simp at hv
  case isTrue h =>
    obtain ⟨hst, hse⟩ := h
    obtain ⟨k, hk, rfl⟩ := List.mem_map.mp hv
    rw [List.mem_range] at hk
    have h1 : (k : Int) ≤ (((e - s).toNat / st.toNat : Nat) : Int) := by
      exact_mod_cast Nat.lt_succ_iff.mp hk
    have h2 : st * (k : Int) ≤ st * (((e - s).toNat / st.toNat : Nat) : Int) :=
      mul_le_mul_of_nonneg_left h1 hst.le
    have h3 : (st.toNat : Int) = st := Int.toNat_of_nonneg hst.le
    have h4 : ((e - s).toNat / st.toNat : Nat) * st.toNat ≤ (e - s).toNat :=
      Nat.div_mul_le_self _ _
    have h5 : (((e - s).toNat / st.toNat : Nat) : Int) * st ≤ ((e - s).toNat : Int) := by
      rw [← h3]; exact_mod_cast h4
    have h6 : ((e - s).toNat : Int) = e - s := Int.toNat_of_nonneg (by omega)
    have h7 : 0 ≤ st * (k : Int) := mul_nonneg hst.le (Int.natCast_nonneg k)
    have h8 : st * (((e - s).toNat / st.toNat : Nat) : Int) ≤ e - s := by
      rw [mul_comm]; omega
    have h9 := h2.trans h8
    omega

theorem chain'_lt_intStepRange (s e st : Int) :
    List.Chain' (· < ·) (intStepRange s e st) := by
  unfold intStepRange
  split
  case isFalse => simp
  case isTrue h =>
    rw [List.chain'_map]
    rw [List.chain'_range_succ]
    intro m _
    have : st * (m : Int) < st * ((m : Int) + 1) :=
      mul_lt_mul_of_pos_left (by omega) h.1
    push_cast
    omega

theorem mem_intStepRange_one {s e v : Int} (hse : s ≤ e) :
    v ∈ intStepRange s e 1 ↔ s ≤ v ∧ v ≤ e := by
  constructor
  · exact mem_intStepRange
  · rintro ⟨h1, h2⟩
    unfold intStepRange
    rw [if_pos ⟨by omega, hse⟩]
    refine List.mem_map.mpr ⟨(v - s).toNat, ?_, ?_⟩
    · rw [List.mem_range]
      have : (1 : Int).toNat = 1 := rfl
      rw [this, Nat.div_one]
      omega
    · omega

theorem mem_dedupFirstAux {v : Int} :
    ∀ (l seen : List Int), v ∈ dedupFirstAux seen l → v ∈ l := by
  intro l
  induction l with
  | nil => intro seen h; simp [dedupFirstAux] at h
  | cons x xs ih =>
    intro seen h
    rw [dedupFirstAux] at h
    split at h
    · exact List.mem_cons_of_mem x (ih _ h)
    · rcases List.mem_cons.mp h with h | h
      · exact h ▸ List.mem_cons_self x xs
      · exact List.mem_cons_of_mem x (ih _ h)

theorem not_mem_seen_dedupFirstAux {v : Int} :
    ∀ (l seen : List Int), v ∈ dedupFirstAux seen l → v ∉ seen := by
  intro l
  induction l with
  | nil => intro seen h; simp [dedupFirstAux] at h
  | cons x xs ih =>
    intro seen h
    rw [dedupFirstAux] at h
    split at h
    · exact ih _ h
    · rcases List.mem_cons.mp h with h | h
      · subst h; assumption
      · intro hv
        exact ih _ h (List.mem_cons_of_mem x hv)

theorem nodup_dedupFirstAux : ∀ (l seen : List Int), (dedupFirstAux seen l).Nodup := by
  intro l
  induction l with
  | nil => intro seen; simp [dedupFirstAux]
  | cons x xs ih =>
    intro seen
    rw [dedupFirstAux]
    split
    · exact ih _
    · refine List.nodup_cons.mpr ⟨?_, ih _⟩
      intro hx
      exact not_mem_seen_dedupFirstAux _ _ hx (List.mem_cons_self x seen)

theorem mem_dedupFirst {v : Int} {l : List Int} (h : v ∈ dedupFirst l) : v ∈ l :=
  mem_dedupFirstAux l [] h

theorem nodup_dedupFirst (l : List Int) : (dedupFirst l).Nodup :=
  nodup_dedupFirstAux l []

theorem sortAsc_perm (l : List Int) : List.Perm (sortAsc l) l :=
  List.perm_insertionSort _ l

theorem sortAsc_sorted (l : List Int) : List.Sorted (· ≤ ·) (sortAsc l) :=
  List.sorted_insertionSort _ l

theorem chain'_lt_sortAsc_of_nodup {l : List Int} (h : l.Nodup) :
    List.Chain' (· < ·) (sortAsc l) := by
  rw [List.chain'_iff_pairwise]
  have hs : List.Pairwise (· ≤ ·) (sortAsc l) := sortAsc_sorted l
  have hn : (sortAsc l).Nodup := (sortAsc_perm l).nodup_iff.mpr h
  exact (hs.and hn).imp (fun h => lt_of_le_of_ne h.1 h.2)

/-! ## Bounds of `partValues` and `parseField` -/

theorem mem_partValues {mn mx v : Int} {names : Option (List (List Char))}
    {part : List Char} (hv : v ∈ partValues mn mx names part) :
    mn ≤ v ∧ v ≤ mx := by
  simp only [partValues] at hv
  split at hv
  · -- step branch
    split at hv
    · simp at hv
    · split at hv
      · simp at hv
      · split at hv
        · exact mem_intStepRange hv
        · split at hv
          · split at hv
            case isTrue h =>
              have := mem_intStepRange hv
              exact ⟨le_trans h.1 this.1, le_trans this.2 h.2.1⟩
            case isFalse => simp at hv
          · split at hv
            case isTrue h =>
              have := mem_intStepRange hv
              exact ⟨le_trans h.1 this.1, this.2⟩
            case isFalse => simp at hv
  · split at hv
    · -- range branch
      split at hv
      case isTrue h =>
        have := mem_intStepRange hv
        exact ⟨le_trans h.1 this.1, le_trans this.2 h.2.1⟩
      case isFalse => simp at hv
    · -- single value branch
      split at hv
      case isTrue h =>
        rcases List.mem_singleton.mp hv with rfl
        exact h
      case isFalse => simp at hv

theorem mem_parseField {field : List Char} {mn mx v : Int}
    {names : Option (List (List Char))}
    (hv : v ∈ parseField field mn mx names) : mn ≤ v ∧ v ≤ mx := by
  unfold parseField at hv
  split at hv
  · exact mem_intStepRange hv
  · have hv2 : v ∈ (field.splitOn ',').flatMap (partValues mn mx names) :=
      mem_dedupFirst ((sortAsc_perm _).mem_iff.mp hv)
    obtain ⟨part, _, hp⟩ := List.mem_flatMap.mp hv2
    exact mem_partValues hp

theorem chain'_lt_parseField (field : List Char) (mn mx : Int)
    (names : Option (List (List Char))) :
    List.Chain' (· < ·) (parseField field mn mx names) := by
  unfold parseField
  split
  · exact chain'_lt_intStepRange mn mx 1
  · exact chain'_lt_sortAsc_of_nodup (nodup_dedupFirst _)

example : parseField (jstr "*/15") 0 59 none = [0, 15, 30, 45] := by decide

/-- C7: for every field string, bounds `min ≤ max` and optional name
table, `parseField` returns a strictly increasing (hence duplicate-free)
list of integers all lying within `[min, max]`; out-of-range
sub-expressions contribute nothing; `parseField "*/15" 0 59` is exactly
`[0, 15, 30, 45]`; and `"*"` expands to every integer in `[min, max]`. -/
theorem claim_C7 (field : List Char) (mn mx : Int)
    (names : Option (List (List Char))) (hmn : mn ≤ mx) :
    List.Chain' (· < ·) (parseField field mn mx names) ∧
    (∀ v ∈ parseField field mn mx names, mn ≤ v ∧ v ≤ mx) ∧
    parseField (jstr "*/15") 0 59 none = [0, 15, 30, 45] ∧
    (∀ v : Int, v ∈ parseField (jstr "*") mn mx names ↔ (mn ≤ v ∧ v ≤ mx)) := by
  refine ⟨chain'_lt_parseField field mn mx names,
    fun v hv => mem_parseField hv, by decide, fun v => ?_⟩
  rw [parseField, if_pos rfl]
  exact mem_intStepRange_one hmn

/-- Witness for C7 at the concrete field `"1-5"` with bounds `0 ≤ 59`. -/
theorem claim_C7_witness :
    (0 : Int) ≤ 59 ∧
    (List.Chain' (· < ·) (parseField (jstr "1-5") 0 59 none) ∧
     (∀ v ∈ parseField (jstr "1-5") 0 59 none, 0 ≤ v ∧ v ≤ 59) ∧
     parseField (jstr "*/15") 0 59 none = [0, 15, 30, 45] ∧
     (∀ v : Int, v ∈ parseField (jstr "*") 0 59 none ↔ (0 ≤ v ∧ v ≤ 59))) :=
  ⟨by decide, claim_C7 (jstr "1-5") 0 59 none (by decide)⟩

/-! ## Properties of the LCS dynamic-programming table -/

theorem dpF_congr (a b : List (List Char)) :
    ∀ f g i j, i + j ≤ f → i + j ≤ g → dpF a b f i j = dpF a b g i j := by
  intro f
  induction f with
  | zero =>
    intro g i j hf _
    have hi : i = 0 := by omega
    subst hi
    simp [dpF]
  | succ f ih =>
    intro g i j hf hg
    match i, j with
    | 0, j => simp [dpF]
    | i + 1, 0 => simp [dpF]
    | i + 1, j + 1 =>
      obtain ⟨g', rfl⟩ : ∃ g', g = g' + 1 := ⟨g - 1, by omega⟩
      simp only [dpF]
      by_cases hc : jsGet a i = jsGet b j
      · rw [if_pos hc, if_pos hc, ih g' i j (by omega) (by omega)]
      · rw [if_neg hc, if_neg hc, ih g' i (j + 1) (by omega) (by omega),
          ih g' (i + 1) j (by omega) (by omega)]

theorem lcsDp_zero_left (a b : List (List Char)) (j : Nat) :
    lcsDp a b 0 j = 0 := by simp [lcsDp, dpF]

theorem lcsDp_zero_right (a b : List (List Char)) (i : Nat) :
    lcsDp a b i 0 = 0 := by cases i <;> simp [lcsDp, dpF]

theorem lcsDp_succ_succ (a b : List (List Char)) (i j : Nat) :
    lcsDp a b (i + 1) (j + 1) =
      if jsGet a i = jsGet b j then lcsDp a b i j + 1
      else max (lcsDp a b i (j + 1)) (lcsDp a b (i + 1) j) := by
  show dpF a b ((i + 1 + j) + 1) (i + 1) (j + 1) = _
  simp only [dpF]
  rw [dpF_congr a b (i + 1 + j) (i + j) i j (by omega) (by omega)]
  rw [dpF_congr a b (i + 1 + j) (i + (j + 1)) i (j + 1) (by omega) (by omega)]
  rw [dpF_congr a b (i + 1 + j) ((i + 1) + j) (i + 1) j (by omega) (by omega)]
  rfl

theorem lcsDp_facts (a b : List (List Char)) :
    ∀ n i j, i + j ≤ n →
      (lcsDp a b i j ≤ lcsDp a b (i + 1) j) ∧
      (lcsDp a b i j ≤ lcsDp a b i (j + 1)) ∧
      (lcsDp a b (i + 1) j ≤ lcsDp a b i j + 1) ∧
      (lcsDp a b i (j + 1) ≤ lcsDp a b i j + 1) := by
  intro n
  induction n with
  | zero =>
    intro i j h
    have hi : i = 0 := by omega
    have hj : j = 0 := by omega
    subst hi; subst hj
    simp [lcsDp_zero_left, lcsDp_zero_right]
  | succ n ih =>
    intro i j h
    refine ⟨?_, ?_, ?_, ?_⟩
    · -- monotone in the first index
      cases j with
      | zero => simp [lcsDp_zero_right]
      | succ j' =>
        cases i with
        | zero => simp [lcsDp_zero_left]
        | succ i' =>
          rw [lcsDp_succ_succ a b (i' + 1) j']
          split
          · exact le_trans (ih (i' + 1) j' (by omega)).2.2.2
              (Nat.add_le_add_right (le_refl _) 1)
          · exact le_max_left _ _
    · -- monotone in the second index
      cases i with
      | zero => simp [lcsDp_zero_left]
      | succ i' =>
        cases j with
        | zero => simp [lcsDp_zero_right]
        | succ j' =>
          rw [lcsDp_succ_succ a b i' (j' + 1)]
          split
          · exact le_trans (ih i' (j' + 1) (by omega)).2.2.1
              (Nat.add_le_add_right (le_refl _) 1)
          · exact le_max_right _ _
    · -- adding one row increases the value by at most one
      cases j with
      | zero => simp [lcsDp_zero_right]
      | succ j' =>
        rw [lcsDp_succ_succ a b i j']
        split
        · exact Nat.add_le_add_right (ih i j' (by omega)).2.1 1
        · refine max_le (Nat.le_succ_of_le (le_refl _)) ?_
          exact le_trans (ih i j' (by omega)).2.2.1
            (Nat.add_le_add_right (ih i j' (by omega)).2.1 1)
    · -- adding one column increases the value by at most one
      cases i with
      | zero => simp [lcsDp_zero_left]
      | succ i' =>
        rw [lcsDp_succ_succ a b i' j]
        split
        · exact Nat.add_le_add_right (ih i' j (by omega)).1 1
        · refine max_le ?_ (Nat.le_succ_of_le (le_refl _))
          exact le_trans (ih i' j (by omega)).2.2.2
            (Nat.add_le_add_right (ih i' j (by omega)).1 1)

theorem lcsDp_mono_left (a b : List (List Char)) (i j : Nat) :
    lcsDp a b i j ≤ lcsDp a b (i + 1) j :=
  (lcsDp_facts a b (i + j) i j le_rfl).1

theorem dpF_comm (a b : List (List Char)) :
    ∀ f i j, dpF a b f i j = dpF b a f j i := by
  intro f
  induction f with
  | zero => intro i j; cases i <;> cases j <;> simp [dpF]
  | succ f ih =>
    intro i j
    cases i with
    | zero => cases j <;> simp [dpF]
    | succ i' =>
      cases j with
      | zero => simp [dpF]
      | succ j' =>
        simp only [dpF]
        by_cases hc : jsGet a i' = jsGet b j'
        · rw [if_pos hc, if_pos hc.symm, ih i' j']
        · rw [if_neg hc, if_neg (fun h => hc h.symm), ih i' (j' + 1),
            ih (i' + 1) j', Nat.max_comm]

theorem lcsDp_comm (a b : List (List Char)) (i j : Nat) :
    lcsDp a b i j = lcsDp b a j i := by
  unfold lcsDp
  rw [dpF_comm, Nat.add_comm]

/-! ## Counting lines in the LCS walk -/

/-- Number of lines of a given type in a diff line list. -/
def countType (t : DiffType) (l : List DiffLine) : Nat :=
  (l.filter (fun x => x.type == t)).length

theorem countType_concat (t : DiffType) (xs : List DiffLine) (x : DiffLine) :
    countType t (xs ++ [x]) =
      countType t xs + (if x.type = t then 1 else 0) := by
  simp only [countType, List.filter_append, List.length_append]
  congr 1
  by_cases h : x.type = t
  · simp [h]
  · simp [List.filter_cons, h]

theorem walkF_counts (l1 l2 p1 p2 : List (List Char)) :
    ∀ fuel i j, i + j ≤ fuel →
      countType .equal (walkF l1 l2 p1 p2 fuel i j) = lcsDp p1 p2 i j ∧
      countType .added (walkF l1 l2 p1 p2 fuel i j) + lcsDp p1 p2 i j = j ∧
      countType .removed (walkF l1 l2 p1 p2 fuel i j) + lcsDp p1 p2 i j = i := by
  intro fuel
  induction fuel with
  | zero =>
    intro i j h
    have hi : i = 0 := by omega
    have hj : j = 0 := by omega
    subst hi; subst hj
    simp [walkF, countType, lcsDp_zero_left]
  | succ fuel ih =>
    intro i j h
    rw [walkF]
    by_cases h0 : i = 0 ∧ j = 0
    · obtain ⟨rfl, rfl⟩ := h0
      simp [countType, lcsDp_zero_left]
    · rw [if_neg h0]
      by_cases hm : 0 < i ∧ 0 < j ∧ jsGet p1 (i - 1) = jsGet p2 (j - 1)
      · rw [if_pos hm]
        obtain ⟨hi, hj, hEq⟩ := hm
        obtain ⟨i', rfl⟩ : ∃ i', i = i' + 1 := ⟨i - 1, by omega⟩
        obtain ⟨j', rfl⟩ : ∃ j', j = j' + 1 := ⟨j - 1, by omega⟩
        simp only [Nat.add_sub_cancel] at hEq
        have hrec := ih i' j' (by omega)
        have hD : lcsDp p1 p2 (i' + 1) (j' + 1) = lcsDp p1 p2 i' j' + 1 := by
          rw [lcsDp_succ_succ, if_pos hEq]
        rw [countType_concat, countType_concat, countType_concat]
        simp only [hD]
        refine ⟨?_, ?_, ?_⟩ <;> simp <;> omega
      · rw [if_neg hm]
        by_cases ha : 0 < j ∧ (i = 0 ∨ lcsDp p1 p2 (i - 1) j ≤ lcsDp p1 p2 i (j - 1))
        · rw [if_pos ha]
          obtain ⟨hj, hor⟩ := ha
          obtain ⟨j', rfl⟩ : ∃ j', j = j' + 1 := ⟨j - 1, by omega⟩
          have hD : lcsDp p1 p2 i (j' + 1) = lcsDp p1 p2 i j' := by
            cases i with
            | zero => rw [lcsDp_zero_left, lcsDp_zero_left]
            | succ i' =>
              have hne : ¬ jsGet p1 i' = jsGet p2 j' := by
                intro hc
                exact hm ⟨by omega, by omega, by simpa using hc⟩
              rcases hor with hor | hle
              · omega
              · simp only [Nat.add_sub_cancel] at hle
                rw [lcsDp_succ_succ, if_neg hne]
                exact max_eq_right hle
          have hrec := ih i j' (by omega)
          rw [countType_concat, countType_concat, countType_concat]
          simp only [hD]
          refine ⟨?_, ?_, ?_⟩ <;> simp <;> omega
        · by_cases hi : 0 < i
          · rw [if_neg ha, if_pos hi]
            obtain ⟨i', rfl⟩ : ∃ i', i = i' + 1 := ⟨i - 1, by omega⟩
            have hD : lcsDp p1 p2 (i' + 1) j = lcsDp p1 p2 i' j := by
              cases j with
              | zero => rw [lcsDp_zero_right, lcsDp_zero_right]
              | succ j' =>
                have hne : ¬ jsGet p1 i' = jsGet p2 j' := by
                  intro hc
                  exact hm ⟨by omega, by omega, by simpa using hc⟩
                have hlt : ¬ lcsDp p1 p2 i' (j' + 1) ≤ lcsDp p1 p2 (i' + 1) j' := by
                  intro hc
                  exact ha ⟨by omega, Or.inr (by simpa using hc)⟩
                rw [lcsDp_succ_succ, if_neg hne]
                exact max_eq_left (by omega)
            have hrec := ih i' j (by omega)
            rw [countType_concat, countType_concat, countType_concat]
            simp only [hD]
            refine ⟨?_, ?_, ?_⟩ <;> simp <;> omega
          · exact absurd ⟨by omega, Or.inl (by omega)⟩ ha

/-! ## Cron next-execution enumeration (C9 and C1) -/

theorem daysInMonth_le (y m : Nat) : daysInMonth y m ≤ 31 := by
  unfold daysInMonth
  split_ifs <;> omega

theorem daysInMonth_pos (y m : Nat) : 1 ≤ daysInMonth y m := by
  unfold daysInMonth
  split_ifs <;> omega

theorem addOneMinute_wf (t : DateTime) (h : DateTimeWF t) :
    DateTimeWF (addOneMinute t) := by
  obtain ⟨h1, h2, h3, h4, h5, h6⟩ := h
  have hp := daysInMonth_pos t.year t.month
  unfold addOneMinute
  split_ifs with c1 c2 c3 c4
  · exact ⟨h1, h2, h3, h4, h5, by dsimp; omega⟩
  · exact ⟨h1, h2, h3, h4, by dsimp; omega, by dsimp; omega⟩
  · exact ⟨h1, h2, by dsimp; omega, by dsimp; omega, by dsimp; omega, by dsimp; omega⟩
  · refine ⟨by dsimp; omega, by dsimp; omega, by dsimp; omega, ?_, by dsimp; omega,
      by dsimp; omega⟩
    dsimp
    exact daysInMonth_pos t.year (t.month + 1)
  · refine ⟨by dsimp; omega, by dsimp; omega, by dsimp; omega, ?_, by dsimp; omega,
      by dsimp; omega⟩
    dsimp
    exact daysInMonth_pos (t.year + 1) 1

theorem addOneMinute_key (t : DateTime) (h : DateTimeWF t) :
    dtKey t < dtKey (addOneMinute t) := by
  obtain ⟨h1, h2, h3, h4, h5, h6⟩ := h
  have h31 := daysInMonth_le t.year t.month
  unfold addOneMinute dtKey
  split_ifs with c1 c2 c3 c4 <;> dsimp <;> omega

theorem nextExecLoop_length (count : Nat) (m h dom mon dow : List Int) :
    ∀ fuel cur acc, acc.length ≤ count →
      (nextExecLoop count m h dom mon dow fuel cur acc).length ≤ count := by
  intro fuel
  induction fuel with
  | zero => intro cur acc hacc; exact hacc
  | succ fuel ih =>
    intro cur acc hacc
    rw [nextExecLoop]
    split
    · exact hacc
    · rename_i hstop
      apply ih
      split
      · simp only [List.length_append, List.length_singleton]
        omega
      · exact hacc

theorem nextExecLoop_chain (count : Nat) (m h dom mon dow : List Int) :
    ∀ fuel cur acc, DateTimeWF cur →
      List.Chain' (fun a b => dtKey a < dtKey b) acc →
      (∀ x ∈ acc, dtKey x < dtKey cur) →
      List.Chain' (fun a b => dtKey a < dtKey b)
        (nextExecLoop count m h dom mon dow fuel cur acc) := by
  intro fuel
  induction fuel with
  | zero => intro cur acc _ hacc _; exact hacc
  | succ fuel ih =>
    intro cur acc hwf hacc hlt
    rw [nextExecLoop]
    split
    · exact hacc
    · apply ih (addOneMinute cur) _ (addOneMinute_wf cur hwf)
      · split
        · exact List.chain'_append.mpr ⟨hacc, List.chain'_singleton _,
            fun x hx y hy => by
              simp only [List.head?_cons, Option.mem_def, Option.some.injEq] at hy
              subst hy
              exact hlt x (by
                have := List.mem_of_mem_getLast? hx
                exact this)⟩
        · exact hacc
      · intro x hx
        have hcur : dtKey cur < dtKey (addOneMinute cur) := addOneMinute_key cur hwf
        split at hx
        · rcases List.mem_append.mp hx with hx | hx
          · exact lt_trans (hlt x hx) hcur
          · rcases List.mem_singleton.mp hx with rfl
            exact hcur
        · exact lt_trans (hlt x hx) hcur

/-- The invariant loop argument for the unsatisfiable February
expression: starting inside June with a bounded remaining-minutes
budget, the scan never reaches a month in the expression's month set
`[2]`, so nothing is ever collected. -/
theorem nextExecLoop_june (count : Nat) (m h dom dow : List Int) :
    ∀ fuel cur acc, cur.month = 6 → cur.hour ≤ 23 → cur.minute ≤ 59 →
      cur.day * 1440 + cur.hour * 60 + cur.minute + fuel ≤ 44639 →
      nextExecLoop count m h dom [2] dow fuel cur acc = acc := by
  intro fuel
  induction fuel with
  | zero => intro cur acc _ _ _ _; rfl
  | succ fuel ih =>
    intro cur acc hmon hh hm hbound
    rw [nextExecLoop]
    split
    · rfl
    · have hmatch : cronInstantMatches m h dom [2] dow cur = false := by
        simp [cronInstantMatches, hmon]
      rw [hmatch]
      simp only [Bool.false_eq_true, if_neg (fun hc : False => hc.elim)]
      have hdim : daysInMonth cur.year 6 = 30 := rfl
      unfold addOneMinute
      split_ifs with c1 c2 c3 c4
      · exact ih _ acc (by dsimp; exact hmon) (by dsimp; omega) (by dsimp; omega)
          (by dsimp; omega)
      · exact ih _ acc (by dsimp; exact hmon) (by dsimp; omega) (by dsimp; omega)
          (by dsimp; omega)
      · exact ih _ acc (by dsimp; exact hmon) (by dsimp; omega) (by dsimp; omega)
          (by dsimp; omega)
      · -- month rollover is impossible within the budget
        exfalso
        rw [hmon, hdim] at c3
        omega
      · exfalso
        rw [hmon, hdim] at c3
        omega

/-- C9: `calculateNextExecutions` always terminates (it is a total
function built on a 10000-iteration fuel bound); it returns at most
`count` timestamps; the returned timestamps are strictly increasing in
time when the scan starts from a well-formed instant; an invalid
expression yields the empty sequence; and the unsatisfiable
`"0 0 30 2 *"` yields the empty sequence from a June 2026 start without
exhausting more than the 10000-iteration bound. -/
theorem claim_C9 (expression : List Char) (count : Nat) (now : DateTime) :
    (calculateNextExecutions expression count now).length ≤ count ∧
    (validateCronExpression expression = false →
      calculateNextExecutions expression count now = []) ∧
    (DateTimeWF now →
      List.Chain' (fun a b => dtKey a < dtKey b)
        (calculateNextExecutions expression count now)) ∧
    calculateNextExecutions (jstr "0 0 30 2 *") 5 juneStart = [] := by
  refine ⟨?_, ?_, ?_, ?_⟩
  · unfold calculateNextExecutions
    split
    · simp
    · split
      · simp
      · exact nextExecLoop_length _ _ _ _ _ _ _ _ _ (by simp)
  · intro hv
    unfold calculateNextExecutions
    split
    · rfl
    · rw [if_pos (by simp [hv])]
  · intro hwf
    unfold calculateNextExecutions
    split
    · simp
    · split
      · simp
      · exact nextExecLoop_chain _ _ _ _ _ _ _ _ _
          (addOneMinute_wf now hwf) List.chain'_nil (by simp)
  · unfold calculateNextExecutions
    rw [show parseCronExpression (jstr "0 0 30 2 *") =
      .success ⟨jstr "0", jstr "0", jstr "30", jstr "2", jstr "*", none⟩ from by decide]
    dsimp only
    rw [show validateCronExpression (jstr "0 0 30 2 *") = true from by decide]
    rw [if_neg (show ¬ ¬ (true = true) from fun hc => hc rfl)]
    rw [show parseField (jstr "0") 0 59 none = [0] from by decide]
    rw [show parseField (jstr "0") 0 23 none = [0] from by decide]
    rw [show parseField (jstr "30") 1 31 none = [30] from by decide]
    rw [show parseField (jstr "2") 1 12 (CRON_RANGES .month).names = [2] from by decide]
    rw [show parseField (jstr "*") 0 6 (CRON_RANGES .dayOfWeek).names =
      [0, 1, 2, 3, 4, 5, 6] from by decide]
    exact nextExecLoop_june 5 [0] [0] [30] [0, 1, 2, 3, 4, 5, 6] maxAttempts
      (addOneMinute juneStart) [] (by decide) (by decide) (by decide) (by decide)

/-- Witness for C9: an invalid expression yields the empty sequence, and
the bounds hold, at a concrete well-formed starting instant. -/
theorem claim_C9_witness :
    validateCronExpression (jstr "61 9 * * 1") = false ∧ DateTimeWF juneStart ∧
    ((calculateNextExecutions (jstr "61 9 * * 1") 5 juneStart).length ≤ 5 ∧
      calculateNextExecutions (jstr "61 9 * * 1") 5 juneStart = [] ∧
      List.Chain' (fun a b => dtKey a < dtKey b)
        (calculateNextExecutions (jstr "61 9 * * 1") 5 juneStart)) :=
  ⟨by decide, by decide, by
    obtain ⟨hl, hv, hc, _⟩ := claim_C9 (jstr "61 9 * * 1") 5 juneStart
    exact ⟨hl, hv (by decide), hc (by decide)⟩⟩

set_option maxRecDepth 100000 in
/-- C1 (failing input for the code bug): the expression
`"0 9 * * 1"` restricts the day of week to Monday (`parseField "1"`
expands to `[1]` and dayOfMonth is `"*"`), yet `calculateNextExecutions`
starting Tuesday June 16 2026 08:30 returns 09:00 of that same Tuesday
(`dow = 2`): the day clause `daysOfMonth.includes(d) ||
daysOfWeek.includes(w)` is always true because the wildcard dayOfMonth
expansion `[1..31]` contains every day, so the POSIX rule that the
restricted dayOfWeek field alone decides the match is violated. -/
theorem claim_C1 :
    calculateNextExecutions (jstr "0 9 * * 1") 1 tueStart =
      [⟨2026, 6, 16, 9, 0, 2⟩] ∧
    parseCronExpression (jstr "0 9 * * 1") =
      .success ⟨jstr "0", jstr "9", jstr "*", jstr "*", jstr "1", none⟩ ∧
    parseField (jstr "1") 0 6 (CRON_RANGES .dayOfWeek).names = [1] ∧
    parseField (jstr "*") 1 31 none =
      [1, 2, 3, 4, 5, 6, 7, 8, 9, 10, 11, 12, 13, 14, 15, 16, 17, 18, 19, 20,
       21, 22, 23, 24, 25, 26, 27, 28, 29, 30, 31] := by
  exact ⟨by decide, by decide, by decide, by decide⟩

/-! ## Unified diff rendering of an unchanged result (C6) -/

theorem all_equal_of_no_changes (d : DiffResult)
    (h3 : d.stats = calculateDiffStats d.lines)
    (h4 : d.hasChanges = (d.stats.added > 0 || d.stats.removed > 0))
    (h1 : d.hasChanges = false) :
    d.lines.filter (fun l => l.type == DiffType.equal) = d.lines := by
  rw [h1, h3] at h4
  simp only [calculateDiffStats] at h4
  have h4' := h4.symm
  rw [Bool.or_eq_false_iff] at h4'
  obtain ⟨ha, hr⟩ := h4'
  rw [decide_eq_false_iff_not] at ha hr
  have hA : d.lines.filter (fun l => l.type == DiffType.added) = [] := by
    rw [← List.length_eq_zero]
    omega
  have hR : d.lines.filter (fun l => l.type == DiffType.removed) = [] := by
    rw [← List.length_eq_zero]
    omega
  rw [List.filter_eq_nil_iff] at hA hR
  apply List.filter_eq_self.mpr
  intro x hx
  cases htype : x.type with
  | equal => simp [htype]
  | added =>
    exfalso
    exact hA x hx (by simp [htype])
  | removed =>
    exfalso
    exact hR x hx (by simp [htype])

/-- C6: for every well-formed `DiffResult` (stats derived from the lines
and `hasChanges` derived from the stats, as the data model requires)
with `hasChanges = false` and nonempty lines, `formatUnifiedDiff` emits
the two file headers followed by exactly one hunk whose header uses the
number of equal lines on both sides and whose body lists every equal
line prefixed with a single space. -/
theorem claim_C6 (d : DiffResult) (filename1 filename2 : List Char)
    (h3 : d.stats = calculateDiffStats d.lines)
    (h4 : d.hasChanges = (d.stats.added > 0 || d.stats.removed > 0))
    (h1 : d.hasChanges = false) (h2 : d.lines ≠ []) :
    formatUnifiedDiff d filename1 filename2 =
      jsJoinLines ([jstr "--- " ++ filename1, jstr "+++ " ++ filename2] ++
        hunkHeader
          (jsOrOne (jsGetDL (d.lines.filter (fun l => l.type == DiffType.equal)) 0).lineNumber1)
          (d.lines.filter (fun l => l.type == DiffType.equal)).length
          (jsOrOne (jsGetDL (d.lines.filter (fun l => l.type == DiffType.equal)) 0).lineNumber2)
          (d.lines.filter (fun l => l.type == DiffType.equal)).length ::
        (d.lines.filter (fun l => l.type == DiffType.equal)).map
          (fun l => ' ' :: l.content)) := by
  have hfe := all_equal_of_no_changes d h3 h4 h1
  have hlen : d.lines.length ≠ 0 := fun h => h2 (List.length_eq_zero.mp h)
  have hpos : d.lines.length > 0 := Nat.pos_of_ne_zero hlen
  have hepos : (d.lines.filter (fun l => l.type == DiffType.equal)).length > 0 := by
    rw [hfe]; exact hpos
  rw [formatUnifiedDiff]
  dsimp only
  rw [if_neg hlen, if_pos ⟨h1, hpos⟩, if_pos hepos]

/-- Witness for C6 at the diff of a two-line text against itself. -/
theorem claim_C6_witness :
    ((diffTexts (jstr "a\nb") (jstr "a\nb") ⟨false, false, none⟩).stats =
      calculateDiffStats (diffTexts (jstr "a\nb") (jstr "a\nb") ⟨false, false, none⟩).lines ∧
     (diffTexts (jstr "a\nb") (jstr "a\nb") ⟨false, false, none⟩).hasChanges = false ∧
     (diffTexts (jstr "a\nb") (jstr "a\nb") ⟨false, false, none⟩).lines ≠ []) ∧
    formatUnifiedDiff (diffTexts (jstr "a\nb") (jstr "a\nb") ⟨false, false, none⟩)
        (jstr "text1") (jstr "text2") =
      jsJoinLines ([jstr "--- " ++ jstr "text1", jstr "+++ " ++ jstr "text2"] ++
        hunkHeader
          (jsOrOne (jsGetDL ((diffTexts (jstr "a\nb") (jstr "a\nb") ⟨false, false, none⟩).lines.filter
            (fun l => l.type == DiffType.equal)) 0).lineNumber1)
          ((diffTexts (jstr "a\nb") (jstr "a\nb") ⟨false, false, none⟩).lines.filter
            (fun l => l.type == DiffType.equal)).length
          (jsOrOne (jsGetDL ((diffTexts (jstr "a\nb") (jstr "a\nb") ⟨false, false, none⟩).lines.filter
            (fun l => l.type == DiffType.equal)) 0).lineNumber2)
          ((diffTexts (jstr "a\nb") (jstr "a\nb") ⟨false, false, none⟩).lines.filter
            (fun l => l.type == DiffType.equal)).length ::
        ((diffTexts (jstr "a\nb") (jstr "a\nb") ⟨false, false, none⟩).lines.filter
          (fun l => l.type == DiffType.equal)).map (fun l => ' ' :: l.content)) :=
  ⟨⟨by decide, by decide, by decide⟩,
    claim_C6 (diffTexts (jstr "a\nb") (jstr "a\nb") ⟨false, false, none⟩)
      (jstr "text1") (jstr "text2") (by decide) (by decide) (by decide) (by decide)⟩

/-! ## Block structure of the LCS walk (C2) -/

/-! ## Block structure of the LCS walk (C2) -/

theorem walkF_zero_zero (l1 l2 p1 p2 : List (List Char)) :
    ∀ fuel, walkF l1 l2 p1 p2 fuel 0 0 = [] := by
  intro fuel
  cases fuel <;> simp [walkF]

/-- The last line of a nonempty walk is the line emitted by the branch
taken at `(i, j)`; in particular it can only be an added line when the
added branch was taken there. -/
theorem walkF_getLast_added (l1 l2 p1 p2 : List (List Char)) :
    ∀ fuel i j, i + j ≤ fuel → ¬(i = 0 ∧ j = 0) →
      ∃ x, (walkF l1 l2 p1 p2 fuel i j).getLast? = some x ∧
        (x.type = DiffType.added →
          ¬(0 < i ∧ 0 < j ∧ jsGet p1 (i - 1) = jsGet p2 (j - 1)) ∧
          0 < j ∧ (i = 0 ∨ lcsDp p1 p2 (i - 1) j ≤ lcsDp p1 p2 i (j - 1))) := by
  intro fuel i j hle h0
  obtain ⟨f, rfl⟩ : ∃ f, fuel = f + 1 := ⟨fuel - 1, by omega⟩
  rw [walkF, if_neg h0]
  by_cases hm : 0 < i ∧ 0 < j ∧ jsGet p1 (i - 1) = jsGet p2 (j - 1)
  · rw [if_pos hm]
    refine ⟨_, List.getLast?_concat _, ?_⟩
    intro hx
    simp at hx
  · rw [if_neg hm]
    by_cases ha : 0 < j ∧ (i = 0 ∨ lcsDp p1 p2 (i - 1) j ≤ lcsDp p1 p2 i (j - 1))
    · rw [if_pos ha]
      exact ⟨_, List.getLast?_concat _, fun _ => ⟨hm, ha⟩⟩
    · by_cases hi : 0 < i
      · rw [if_neg ha, if_pos hi]
        refine ⟨_, List.getLast?_concat _, ?_⟩
        intro hx
        simp at hx
      · exact absurd ⟨by omega, Or.inl (by omega)⟩ ha

theorem walkF_no_added_removed (l1 l2 p1 p2 : List (List Char)) :
    ∀ fuel i j, i + j ≤ fuel →
      List.Chain'
        (fun x y : DiffLine => ¬(x.type = DiffType.added ∧ y.type = DiffType.removed))
        (walkF l1 l2 p1 p2 fuel i j) := by
  intro fuel
  induction fuel with
  | zero =>
    intro i j _
    simp [walkF]
  | succ fuel ih =>
    intro i j hle
    rw [walkF]
    by_cases h0 : i = 0 ∧ j = 0
    · simp [h0]
    · rw [if_neg h0]
      by_cases hm : 0 < i ∧ 0 < j ∧ jsGet p1 (i - 1) = jsGet p2 (j - 1)
      · rw [if_pos hm]
        refine List.chain'_append.mpr
          ⟨ih (i - 1) (j - 1) (by omega), List.chain'_singleton _, ?_⟩
        · intro x _ y hy
          simp only [List.head?_cons, Option.mem_def, Option.some.injEq] at hy
          subst hy
          simp
      · rw [if_neg hm]
        by_cases ha : 0 < j ∧ (i = 0 ∨ lcsDp p1 p2 (i - 1) j ≤ lcsDp p1 p2 i (j - 1))
        · rw [if_pos ha]
          refine List.chain'_append.mpr ⟨ih i (j - 1) (by omega), List.chain'_singleton _, ?_⟩
          intro x _ y hy
          simp only [List.head?_cons, Option.mem_def, Option.some.injEq] at hy
          subst hy
          simp
        · by_cases hi : 0 < i
          · rw [if_neg ha, if_pos hi]
            refine List.chain'_append.mpr
              ⟨ih (i - 1) j (by omega), List.chain'_singleton _, ?_⟩
            intro x hx y hy
            simp only [List.head?_cons, Option.mem_def, Option.some.injEq] at hy
            subst hy
            by_cases hz : i - 1 = 0 ∧ j = 0
            · rw [hz.1, hz.2, walkF_zero_zero] at hx
              simp at hx
            · obtain ⟨x', hlast, himp⟩ :=
                walkF_getLast_added l1 l2 p1 p2 fuel (i - 1) j (by omega) hz
              rw [hlast] at hx
              simp only [Option.mem_def, Option.some.injEq] at hx
              subst hx
              rintro ⟨hxadd, -⟩
              obtain ⟨hnm', hj', hor'⟩ := himp hxadd
              -- the removed branch was taken at (i, j), so j = 0 or the
              -- diagonal strictly prefers the removal; derive a
              -- contradiction with the added branch at (i - 1, j)
              have hj0 : 0 < j := hj'
              have hlt : ¬(i = 0 ∨ lcsDp p1 p2 (i - 1) j ≤ lcsDp p1 p2 i (j - 1)) :=
                fun hor => ha ⟨hj0, hor⟩
              push_neg at hlt
              obtain ⟨hi0, hlt⟩ := hlt
              obtain ⟨ii, rfl⟩ : ∃ ii, i = ii + 1 := ⟨i - 1, by omega⟩
              simp only [Nat.add_sub_cancel] at hor' hnm' hlt hlast
              rcases hor' with hii0 | hle'
              · rw [hii0, lcsDp_zero_left] at hlt
                omega
              · obtain ⟨c, rfl⟩ : ∃ c, ii = c + 1 := by
                  rcases Nat.eq_zero_or_pos ii with h | h
                  · rw [h, lcsDp_zero_left] at hlt
                    omega
                  · exact ⟨ii - 1, by omega⟩
                obtain ⟨d, rfl⟩ : ∃ d, j = d + 1 := ⟨j - 1, by omega⟩
                simp only [Nat.add_sub_cancel] at hle' hnm'
                have hne : ¬ jsGet p1 c = jsGet p2 d := by
                  intro hc
                  exact hnm' ⟨by omega, by omega, hc⟩
                have hmax : lcsDp p1 p2 (c + 1) (d + 1) = lcsDp p1 p2 (c + 1) d := by
                  rw [lcsDp_succ_succ, if_neg hne]
                  exact max_eq_right hle'
                have hmono : lcsDp p1 p2 (c + 1) d ≤ lcsDp p1 p2 (c + 2) d :=
                  lcsDp_mono_left p1 p2 (c + 1) d
                have hlt2 : lcsDp p1 p2 (c + 2) d < lcsDp p1 p2 (c + 1) (d + 1) := hlt
                omega
          · exact absurd ⟨by omega, Or.inl (by omega)⟩ ha

/-- C2 (amended): in exact (LCS) mode the backward reconstruction emits
the added line whenever a same-cost insertion and deletion are both
possible, and consequently in the final forward order a removed line is
never followed by crossing below an added line of the same change block:
within every change block all removed lines come before (above) all
added lines.  Formally: no added line is immediately followed by a
removed line anywhere in the output. -/
theorem claim_C2 (lines1 lines2 p1 p2 : List (List Char)) :
    List.Chain'
      (fun x y : DiffLine => ¬(x.type = DiffType.added ∧ y.type = DiffType.removed))
      (generateLCSDiff lines1 lines2 p1 p2) :=
  walkF_no_added_removed lines1 lines2 p1 p2 _ _ _ le_rfl

/-- C2 counterexample: for the texts `"a"` and `"b"` (one change block,
no equal lines) the removed line appears before — not after — the added
line in the forward output, refuting the claim's stated forward order. -/
theorem claim_C2_counterexample :
    (diffTexts (jstr "a") (jstr "b") ⟨false, false, none⟩).lines.map DiffLine.type
      = [DiffType.removed, DiffType.added] := by decide

/-! ## The heuristic diff engine and its lookahead window (C3) -/

theorem range'_filter_lt (L : Nat) :
    ∀ w a, (List.range' a w).filter (fun k => decide (k < L)) =
      List.range' a (min (a + w) L - a) := by
  intro w
  induction w with
  | zero =>
    intro a
    have h : min (a + 0) L - a = 0 := by omega
    rw [h]
    rfl
  | succ w ih =>
    intro a
    rw [List.range'_succ]
    by_cases ha : a < L
    · have hc : min (a + (w + 1)) L - a = (min ((a + 1) + w) L - (a + 1)) + 1 := by
        omega
      rw [hc, List.range'_succ]
      simp only [List.filter_cons, decide_eq_true ha, if_true]
      rw [ih (a + 1)]
    · have h1 : min ((a + 1) + w) L - (a + 1) = 0 := by omega
      have h2 : min (a + (w + 1)) L - a = 0 := by omega
      simp only [List.filter_cons, decide_eq_false ha, Bool.false_eq_true,
        if_neg (fun h : False => h.elim)]
      rw [ih (a + 1), h1, h2]
      rfl

theorem lookAheadInModified_eq (p1 p2 : List (List Char)) (i j : Nat) :
    lookAheadInModified p1 p2 i j = specLookaheadModified 4 p1 p2 i j := by
  unfold lookAheadInModified specLookaheadModified
  rw [range'_filter_lt]

theorem lookAheadInOriginal_eq (p1 p2 : List (List Char)) (i j : Nat) :
    lookAheadInOriginal p1 p2 i j = specLookaheadOriginal 4 p1 p2 i j := by
  unfold lookAheadInOriginal specLookaheadOriginal
  rw [range'_filter_lt]

theorem simpleF_eq_spec (l1 l2 p1 p2 : List (List Char)) :
    ∀ fuel i j, simpleF l1 l2 p1 p2 fuel i j = specSimpleF 4 l1 l2 p1 p2 fuel i j := by
  intro fuel
  induction fuel with
  | zero => intro i j; rfl
  | succ fuel ih =>
    intro i j
    simp only [simpleF, specSimpleF, lookAheadInModified_eq, lookAheadInOriginal_eq, ih]

/-- C3 (amended): the heuristic engine behaves exactly as the claim
describes except that the lookahead window reaches only 4 lines ahead of
the cursor (the `lookAhead = 5` constant is an exclusive bound on the
scanned index): cursors advance together on matching lines; on a
mismatch the engine searches up to 4 lines ahead in the modified, then
in the original sequence, emitting skipped lines as pure additions
(resp. removals) followed by an equal line; and with no window match on
either side it emits exactly one removed and one added line and advances
both cursors. -/
theorem claim_C3 (lines1 lines2 p1 p2 : List (List Char)) :
    generateSimpleDiff lines1 lines2 p1 p2 = specSimpleDiff 4 lines1 lines2 p1 p2 :=
  simpleF_eq_spec lines1 lines2 p1 p2 _ 0 0

set_option maxRecDepth 1000000 in
/-- C3 counterexample: a heuristic-mode input pair (1007 combined lines)
where the original line `"m"` reappears in the modified sequence exactly
5 lines ahead: the claimed 5-line window would find it, but the engine
does not, so the engine's output differs from the claimed behaviour. -/
theorem claim_C3_counterexample :
    lookA.length + lookB.length ≥ 1000 ∧
    generateSimpleDiff lookA lookB lookA lookB ≠
      specSimpleDiff 5 lookA lookB lookA lookB := by
  exact ⟨by decide, by decide⟩

/-! ## Claims about diff statistics symmetry (C4) -/

theorem diffTexts_lcs_stats (text1 text2 : List Char) (options : DiffOptions)
    (hb : ¬(text1 = [] ∧ text2 = []))
    (hsize : (splitLines text1).length + (splitLines text2).length < 1000) :
    (diffTexts text1 text2 options).stats =
      calculateDiffStats (generateLCSDiff (splitLines text1) (splitLines text2)
        ((splitLines text1).map (fun line => processText line options))
        ((splitLines text2).map (fun line => processText line options))) := by
  rw [diffTexts, if_neg hb]
  dsimp only
  rw [if_pos hsize]

theorem calculateDiffStats_counts (lines : List DiffLine) :
    (calculateDiffStats lines).added = countType .added lines ∧
    (calculateDiffStats lines).removed = countType .removed lines ∧
    (calculateDiffStats lines).unchanged = countType .equal lines :=
  ⟨rfl, rfl, rfl⟩

/-- C4 (amended): in exact (LCS) mode — fewer than 1000 combined lines —
swapping the two texts swaps `stats.added` and `stats.removed` exactly
and leaves `stats.unchanged` unchanged, for every options value.  (In
heuristic mode the greedy scan breaks this symmetry; see the
counterexample.) -/
theorem claim_C4 (text1 text2 : List Char) (options : DiffOptions)
    (hsize : (splitLines text1).length + (splitLines text2).length < 1000) :
    (diffTexts text1 text2 options).stats.added =
      (diffTexts text2 text1 options).stats.removed ∧
    (diffTexts text1 text2 options).stats.removed =
      (diffTexts text2 text1 options).stats.added ∧
    (diffTexts text1 text2 options).stats.unchanged =
      (diffTexts text2 text1 options).stats.unchanged := by
  by_cases hb : text1 = [] ∧ text2 = []
  · obtain ⟨rfl, rfl⟩ := hb
    exact ⟨rfl, rfl, rfl⟩
  · have hb' : ¬(text2 = [] ∧ text1 = []) := fun h => hb ⟨h.2, h.1⟩
    have hsize' : (splitLines text2).length + (splitLines text1).length < 1000 := by
      omega
    rw [diffTexts_lcs_stats text1 text2 options hb hsize,
      diffTexts_lcs_stats text2 text1 options hb' hsize']
    set l1 := splitLines text1
    set l2 := splitLines text2
    set P1 := l1.map (fun line => processText line options)
    set P2 := l2.map (fun line => processText line options)
    have h12 := walkF_counts l1 l2 P1 P2 (l1.length + l2.length)
      l1.length l2.length le_rfl
    have h21 := walkF_counts l2 l1 P2 P1 (l2.length + l1.length)
      l2.length l1.length le_rfl
    have hcomm : lcsDp P2 P1 l2.length l1.length =
        lcsDp P1 P2 l1.length l2.length := lcsDp_comm P2 P1 _ _
    rw [hcomm] at h21
    obtain ⟨e12, a12, r12⟩ := h12
    obtain ⟨e21, a21, r21⟩ := h21
    refine ⟨?_, ?_, ?_⟩ <;>
      simp only [calculateDiffStats_counts, generateLCSDiff] <;> omega

/-- Witness for C4 at a concrete small (LCS-mode) pair of texts. -/
theorem claim_C4_witness :
    (splitLines (jstr "a\nc")).length + (splitLines (jstr "a\nb\nc")).length < 1000 ∧
    ((diffTexts (jstr "a\nc") (jstr "a\nb\nc") ⟨false, false, none⟩).stats.added =
      (diffTexts (jstr "a\nb\nc") (jstr "a\nc") ⟨false, false, none⟩).stats.removed ∧
     (diffTexts (jstr "a\nc") (jstr "a\nb\nc") ⟨false, false, none⟩).stats.removed =
      (diffTexts (jstr "a\nb\nc") (jstr "a\nc") ⟨false, false, none⟩).stats.added ∧
     (diffTexts (jstr "a\nc") (jstr "a\nb\nc") ⟨false, false, none⟩).stats.unchanged =
      (diffTexts (jstr "a\nb\nc") (jstr "a\nc") ⟨false, false, none⟩).stats.unchanged) :=
  ⟨by decide, claim_C4 (jstr "a\nc") (jstr "a\nb\nc") ⟨false, false, none⟩ (by decide)⟩

set_option maxRecDepth 1000000 in
/-- C4 counterexample: for a 503-line pair of texts (heuristic mode,
1006 combined lines) the swap symmetry of the claim fails:
`diffTexts a b` has 2 added lines while `diffTexts b a` has only 1
removed line. -/
theorem claim_C4_counterexample :
    (splitLines bigText1).length + (splitLines bigText2).length ≥ 1000 ∧
    (diffTexts bigText1 bigText2 ⟨false, false, none⟩).stats.added ≠
      (diffTexts bigText2 bigText1 ⟨false, false, none⟩).stats.removed := by
  exact ⟨by decide, by decide⟩

/-- C8 counterexample: the claim asserts that every failure of
`parseCronExpression` on a field count other than 5 or 6 carries the
count-reporting message; the whitespace-only input `" "` has 0 fields,
yet its failure message is the dedicated `"Expression cannot be empty"`,
which reports no expected/actual count. -/
theorem claim_C8_counterexample :
    parseCronExpression (jstr " ") =
      .failure (jstr "Expression cannot be empty") ∧
    (wsTokens (jsTrim (jstr " "))).length = 0 ∧
    jstr "Expression cannot be empty" ≠ cronCountMsg 0 ∧
    jstr "Expression cannot be empty" ≠ cronCountMsg 1 := by
  refine ⟨by decide, by decide, by decide, by decide⟩

/-- C8 (amended): `parseCronExpression` succeeds exactly when whitespace
splitting yields 5 or 6 fields; on any other count for an input that is
neither empty nor whitespace-only the failure message reports the
expected versus actual count, while empty and whitespace-only inputs
fail with dedicated messages (and no input produces anything but a
structured result). -/
theorem claim_C8 (expression : List Char) :
    ((parseCronExpression expression).isOk = true ↔
      (wsTokens (jsTrim expression)).length = 5 ∨
        (wsTokens (jsTrim expression)).length = 6) ∧
    (jsTrim expression ≠ [] →
      (wsTokens (jsTrim expression)).length ≠ 5 →
      (wsTokens (jsTrim expression)).length ≠ 6 →
      parseCronExpression expression =
        .failure (cronCountMsg (wsTokens (jsTrim expression)).length)) ∧
    (expression = [] →
      parseCronExpression expression =
        .failure (jstr "Expression must be a non-empty string")) ∧
    (expression ≠ [] → jsTrim expression = [] →
      parseCronExpression expression =
        .failure (jstr "Expression cannot be empty")) := by
  by_cases he : expression = []
  · subst he
    exact ⟨by decide, fun h1 => absurd rfl h1, fun _ => rfl, fun h => absurd rfl h⟩
  · by_cases ht : jsTrim expression = []
    · have hp : parseCronExpression expression =
          .failure (jstr "Expression cannot be empty") := by
        rw [parseCronExpression, if_neg he]
        simp [ht]
      refine ⟨?_, fun h1 => absurd ht h1, fun h => absurd h he, fun _ _ => hp⟩
      rw [hp, ht]
      simp [CronParseResult.isOk, wsTokens, jsSpace]
    · have hp : parseCronExpression expression =
          (if (wsTokens (jsTrim expression)).length = 5 then
            CronParseResult.success
              ⟨jsGetD (wsTokens (jsTrim expression)) 0,
               jsGetD (wsTokens (jsTrim expression)) 1,
               jsGetD (wsTokens (jsTrim expression)) 2,
               jsGetD (wsTokens (jsTrim expression)) 3,
               jsGetD (wsTokens (jsTrim expression)) 4, none⟩
          else if (wsTokens (jsTrim expression)).length = 6 then
            CronParseResult.success
              ⟨jsGetD (wsTokens (jsTrim expression)) 1,
               jsGetD (wsTokens (jsTrim expression)) 2,
               jsGetD (wsTokens (jsTrim expression)) 3,
               jsGetD (wsTokens (jsTrim expression)) 4,
               jsGetD (wsTokens (jsTrim expression)) 5,
               some (jsGetD (wsTokens (jsTrim expression)) 0)⟩
          else
            .failure (cronCountMsg (wsTokens (jsTrim expression)).length)) := by
        rw [parseCronExpression, if_neg he]
        simp only [if_neg ht]
        rfl
      refine ⟨?_, fun _ h5 h6 => ?_, fun h => absurd h he, fun _ h => absurd h ht⟩
      · rw [hp]
        by_cases h5 : (wsTokens (jsTrim expression)).length = 5
        · simp [h5, CronParseResult.isOk]
        · by_cases h6 : (wsTokens (jsTrim expression)).length = 6
          · simp [h5, h6, CronParseResult.isOk]
          · simp [h5, h6, CronParseResult.isOk]
      · rw [hp, if_neg h5, if_neg h6]

/-- Witness for C8 at the concrete three-field expression `"a b c"`. -/
theorem claim_C8_witness :
    jsTrim (jstr "a b c") ≠ [] ∧
    (wsTokens (jsTrim (jstr "a b c"))).length ≠ 5 ∧
    (wsTokens (jsTrim (jstr "a b c"))).length ≠ 6 ∧
    parseCronExpression (jstr "a b c") =
      .failure (cronCountMsg (wsTokens (jsTrim (jstr "a b c"))).length) :=
  ⟨by decide, by decide, by decide,
    (claim_C8 (jstr "a b c")).2.1 (by decide) (by decide) (by decide)⟩

/-- C5: when both input texts are the empty string, `diffTexts` returns
the empty `DiffResult` (no lines, all-zero stats, `hasChanges = false`)
for every options value, rather than reporting one equal empty line. -/
theorem claim_C5 (options : DiffOptions) :
    diffTexts (jstr "") (jstr "") options =
      { lines := [], stats := ⟨0, 0, 0, 0⟩, hasChanges := false } := rfl

/-- C10: `areTextsIdentical` is exactly whole-text equality after
`processText` normalisation, and with `ignoreWhitespace` it can disagree
with `diffTexts`: `"a\nb"` versus `"a b"` is identical for
`areTextsIdentical` while `diffTexts` still reports changes. -/
theorem claim_C10 :
    (∀ (text1 text2 : List Char) (options : DiffOptions),
      areTextsIdentical text1 text2 options = true ↔
        processText text1 options = processText text2 options) ∧
    areTextsIdentical (jstr "a\nb") (jstr "a b") ⟨true, false, none⟩ = true ∧
    (diffTexts (jstr "a\nb") (jstr "a b") ⟨true, false, none⟩).hasChanges = true := by
  refine ⟨fun text1 text2 options => ?_, by decide, by decide⟩
  simp [areTextsIdentical]

example : validateCronExpression (jstr "60 9 * * 1") = false := by decide

example : parseCronExpression (jstr "0 9 * * 1")
    = .success ⟨jstr "0", jstr "9", jstr "*", jstr "*", jstr "1", none⟩ := by decide

end UtilitiesDev
